import Mathlib

/-!
Verification of the event-flow graph engine of the python_pubsub_scanner
repository (files `analyze_event_flow.py` and `anomaly_detector.py`).

The Python code is shallowly embedded: the Python `dict` objects
(`subscriptions`, `publications`, `event_to_subscribers`,
`event_to_publishers`, `event_class_to_namespace`) become insertion-ordered
association lists, Python `set`s become lists whose iteration order is the
(deterministic) insertion order — a legitimate instance of Python's
unspecified set-iteration order — and Python exceptions (`ValueError` raised
by `list.index`, recursion overflow) become `Except String` results.
-/

namespace PubSubScanner

/-- `NamespacedItem` from `analyze_event_flow.py`: an agent or event identity.
The Python field `namespace` is a Lean keyword, so it is called `nspace`
here. -/
structure NamespacedItem where
  name : String
  nspace : String
deriving DecidableEq, Repr

/-- Insertion-ordered association list standing in for a Python `dict`
mapping `NamespacedItem` to a list of `NamespacedItem` (the four graph
mappings are all of this shape). -/
abbrev EMap := List (NamespacedItem × List NamespacedItem)

/-- `m.get(k, [])` on a Python dict: the list stored at `k`, or `[]` when the
key is absent. -/
def lookupList (m : EMap) (k : NamespacedItem) : List NamespacedItem :=
  match m.find? (fun p => decide (p.1 = k)) with
  | some p => p.2
  | none => []

/-- `m[k].append(v)` on a Python `defaultdict(list)`: append `v` to the list
stored at `k`, materializing the key (with the one-element list `[v]`) when it
is absent.  Keys keep their first-insertion position. -/
def appendTo : EMap → NamespacedItem → NamespacedItem → EMap
  | [], k, v => [(k, [v])]
  | p :: rest, k, v =>
      if p.1 = k then (p.1, p.2 ++ [v]) :: rest
      else p :: appendTo rest k v

/-- The keys of a dict, in insertion order. -/
def keysOf (m : EMap) : List NamespacedItem := m.map (fun p => p.1)

/-- Fold elements of `l` into the accumulator `acc`, skipping elements already
present: this is how a Python `set` (or dict key view) accumulates members in
insertion order.  `addKeys [] l` is the deduplicated-keeping-first-occurrences
version of `l`. -/
def addKeys {α : Type} [DecidableEq α] : List α → List α → List α
  | acc, [] => acc
  | acc, x :: l => addKeys (if x ∈ acc then acc else acc ++ [x]) l

/-- The four mappings of `EventFlowAnalyzer` (`analyze_event_flow.py`,
constructor): agent → subscribed events, agent → published events, and their
inverse indices. -/
structure Graph where
  subscriptions : EMap
  publications : EMap
  event_to_subscribers : EMap
  event_to_publishers : EMap
deriving DecidableEq, Repr

/-- The analyzer state right after construction: all four dicts empty. -/
def emptyGraph : Graph := ⟨[], [], [], []⟩

/-- The `event_class_to_namespace` dict: raw event class name → namespace. -/
abbrev NsIndex := List (String × String)

/-- `self.event_class_to_namespace.get(event_class_name, 'default')`
(`analyze_event_flow.py` lines 132 and 149). -/
def resolveNS (idx : NsIndex) (className : String) : String :=
  match idx.find? (fun p => decide (p.1 = className)) with
  | some p => p.2
  | none => "default"

/-- One step of `collections.Counter` construction: count the occurrence of
one more key.  An existing key is incremented in place (keeping its position),
a new key is appended with count 1 — exactly the insertion-order behavior of
a Python dict. -/
def counterInsert : List (String × Nat) → String → List (String × Nat)
  | [], k => [(k, 1)]
  | p :: rest, k =>
      if p.1 = k then (p.1, p.2 + 1) :: rest
      else p :: counterInsert rest k

/-- `collections.Counter(l)` for a list of strings. -/
def counterOf (l : List String) : List (String × Nat) :=
  l.foldl counterInsert []

/-- The largest count in a counter (0 for the empty counter). -/
def maxCount (c : List (String × Nat)) : Nat :=
  c.foldl (fun m p => max m p.2) 0

/-- `Counter.most_common(1)[0][0]`: CPython implements `most_common(1)` with
`heapq.nlargest`, which is stable, so among keys tied for the maximal count
the one inserted first (= first occurrence in the counted sequence) wins.
Returns `none` exactly for the empty counter. -/
def mostCommon1 (c : List (String × Nat)) : Option String :=
  (c.find? (fun p => decide (p.2 = maxCount c))).map (fun p => p.1)

/-- `analyze_event_flow.py` lines 137–141: the agent namespace is the most
common namespace among the published events' namespaces, excluding
`'default'`; `'default'` when no non-default namespace occurs.  The argument
is the `published_events` list of `(class name, resolved namespace)` pairs. -/
def inferAgentNamespace (publishedEvents : List (String × String)) : String :=
  let nonDefault := (publishedEvents.map (fun p => p.2)).filter
    (fun ns => decide (ns ≠ "default"))
  match mostCommon1 (counterOf nonDefault) with
  | some ns => ns
  | none => "default"

/-- Record one subscription fact (`analyze_event_flow.py` lines 152–153):
append the event to `subscriptions[agent]` and the agent to
`event_to_subscribers[event]`, in one step. -/
def recordSub (agentItem : NamespacedItem) (g : Graph) (eventItem : NamespacedItem) :
    Graph :=
  { g with
    subscriptions := appendTo g.subscriptions agentItem eventItem
    event_to_subscribers := appendTo g.event_to_subscribers eventItem agentItem }

/-- Record one publication fact (`analyze_event_flow.py` lines 158–159):
append the event to `publications[agent]` and the agent to
`event_to_publishers[event]`, in one step. -/
def recordPub (agentItem : NamespacedItem) (g : Graph) (eventItem : NamespacedItem) :
    Graph :=
  { g with
    publications := appendTo g.publications agentItem eventItem
    event_to_publishers := appendTo g.event_to_publishers eventItem agentItem }

/-- `_analyze_file` (`analyze_event_flow.py` lines 117–159), with the regex
fact extraction (an external concern per the spec) already performed: the
inputs are the ordered lists of published and subscribed event class names
found in the file.  Resolves every published event's namespace, infers the
agent namespace from the published events, then appends every subscription
and every publication to both sides of the graph.  Note the code performs no
validation of `agentName` whatsoever. -/
def analyzeFile (idx : NsIndex) (agentName : String)
    (publishedNames subscribedNames : List String) (g : Graph) : Graph :=
  let publishedEvents := publishedNames.map (fun en => (en, resolveNS idx en))
  let agentNamespace := inferAgentNamespace publishedEvents
  let agentItem : NamespacedItem := ⟨agentName, agentNamespace⟩
  let g1 := subscribedNames.foldl
    (fun g sn => recordSub agentItem g ⟨sn, resolveNS idx sn⟩) g
  publishedEvents.foldl
    (fun g p => recordPub agentItem g ⟨p.1, p.2⟩) g1

/-- One ingestion call: the facts extracted from one agent source file. -/
structure IngestCall where
  agentName : String
  publishedNames : List String
  subscribedNames : List String

/-- A whole `analyze()` run: fold `_analyze_file` over a sequence of ingestion
calls starting from the freshly constructed (empty) analyzer.  The graphs
reachable through the public interface are exactly `applyCalls idx calls`. -/
def applyCalls (idx : NsIndex) (calls : List IngestCall) : Graph :=
  calls.foldl (fun g c => analyzeFile idx c.agentName c.publishedNames c.subscribedNames g)
    emptyGraph

/-- `get_all_events` (`analyze_event_flow.py` lines 161–171): the set of keys
of `event_to_subscribers` and `event_to_publishers`, as a duplicate-free list
in insertion order (our deterministic stand-in for Python set iteration). -/
def allEventsList (g : Graph) : List NamespacedItem :=
  addKeys [] (keysOf g.event_to_subscribers ++ keysOf g.event_to_publishers)

/-- `get_all_agents` (`analyze_event_flow.py` lines 173–180): the set of keys
of `subscriptions` and `publications`. -/
def allAgentsList (g : Graph) : List NamespacedItem :=
  addKeys [] (keysOf g.subscriptions ++ keysOf g.publications)

/-- Entry-point events for `get_event_chains` (`analyze_event_flow.py` lines
212–215): keys of `event_to_publishers` that are not keys of
`event_to_subscribers` — a key-membership test (`event not in dict`), not an
emptiness test. -/
def entry_events (g : Graph) : List NamespacedItem :=
  (keysOf g.event_to_publishers).filter
    (fun e => decide (e ∉ keysOf g.event_to_subscribers))

/-- One iteration of the `for published_event in published_events` loop of
`_build_chain` (`analyze_event_flow.py` lines 246–251): recurse into the
published event (through `rec`, the fuel-smaller `build_chain`), extend the
chain with the sub-chain only when it is non-empty
(`if sub_chain: chain.extend(sub_chain)`).  An error is sticky, mirroring
exception propagation. -/
def chainStep
    (rec : NamespacedItem → List NamespacedItem →
      Except String (List NamespacedItem × List NamespacedItem))
    (acc : Except String (List NamespacedItem × List NamespacedItem))
    (pe : NamespacedItem) :
    Except String (List NamespacedItem × List NamespacedItem) :=
  match acc with
  | .error e => .error e
  | .ok (chain, vis) =>
      match rec pe vis with
      | .error e => .error e
      | .ok (c, v) => .ok (chain ++ (if c.isEmpty then [] else c), v)

/-- `_build_chain` (`analyze_event_flow.py` lines 225–253) with an explicit
fuel bounding the recursion depth (in Python the depth is bounded by the
number of distinct events, since every recursive call visits a fresh event;
exhausted fuel maps to Python's `RecursionError`).  The two nested `for`
loops (subscribers of the event, publications of each subscriber) are folds
threading the chain and the visited set.  Returns the chain built from
`event` together with the updated visited set. -/
def build_chain (g : Graph) :
    Nat → NamespacedItem → List NamespacedItem →
    Except String (List NamespacedItem × List NamespacedItem)
  | 0, _, _ => .error "RecursionError"
  | fuel + 1, event, visited =>
      if event ∈ visited then .ok ([], visited)
      else
        (lookupList g.event_to_subscribers event).foldl
          (fun acc s =>
            (lookupList g.publications s).foldl
              (chainStep (fun pe vis => build_chain g fuel pe vis)) acc)
          (.ok ([event], event :: visited))

/-- Fuel sufficient for `_build_chain`: the recursion depth never exceeds the
number of distinct visitable events plus one, and every visitable event other
than the root occurs in some `publications` value list. -/
def chainFuel (g : Graph) : Nat :=
  2 + (g.publications.map (fun p => p.2.length)).sum

/-- The `for entry_event in entry_events` loop of `get_event_chains`
(`analyze_event_flow.py` lines 218–221): one shared visited set across all
entry points; a chain is kept only when non-empty (`if chain:`). -/
def chainsLoop (g : Graph) (fuel : Nat) :
    List NamespacedItem → List NamespacedItem →
    Except String (List (List NamespacedItem))
  | [], _ => .ok []
  | e :: rest, visited =>
      match build_chain g fuel e visited with
      | .error s => .error s
      | .ok (c, v) =>
          match chainsLoop g fuel rest v with
          | .error s => .error s
          | .ok cs => .ok ((if c.isEmpty then [] else [c]) ++ cs)

/-- `get_event_chains` (`analyze_event_flow.py` lines 201–223). -/
def get_event_chains (g : Graph) : Except String (List (List NamespacedItem)) :=
  chainsLoop g (chainFuel g) (entry_events g) []

/-! ## Anomaly detector (`anomaly_detector.py`) -/

/-- One record of `detect_orphaned_events`' result list; the Python dict key
`namespace` is again rendered `nspace`. -/
structure OrphanFinding where
  event : String
  nspace : String
  type : String
  severity : String
  message : String
deriving DecidableEq, Repr

/-- The `never_published` record built at `anomaly_detector.py` lines 73–79. -/
def npFinding (e : NamespacedItem) : OrphanFinding :=
  ⟨e.name, e.nspace, "never_published", "warning",
    "Event '" ++ e.name ++ "' is never published by any agent"⟩

/-- The `never_subscribed` record built at `anomaly_detector.py` lines 84–90. -/
def nsFinding (e : NamespacedItem) : OrphanFinding :=
  ⟨e.name, e.nspace, "never_subscribed", "info",
    "Event '" ++ e.name ++ "' has no subscribers"⟩

/-- The per-event body of the `for event in all_events` loop of
`detect_orphaned_events` (`anomaly_detector.py` lines 69–90): first the
publisher check, then the subscriber check. -/
def orphanBranch (g : Graph) (e : NamespacedItem) : List OrphanFinding :=
  (if (lookupList g.event_to_publishers e).isEmpty then [npFinding e] else []) ++
  (if (lookupList g.event_to_subscribers e).isEmpty then [nsFinding e] else [])

/-- The loop of `detect_orphaned_events` over a list of events. -/
def orphanLoop (g : Graph) : List NamespacedItem → List OrphanFinding
  | [] => []
  | e :: rest => orphanBranch g e ++ orphanLoop g rest

/-- `detect_orphaned_events` (`anomaly_detector.py` lines 51–92). -/
def detect_orphaned_events (g : Graph) : List OrphanFinding :=
  orphanLoop g (allEventsList g)

/-- One hop of the reconstructed cycle path (`anomaly_detector.py` lines
155–159); dict key `namespace` rendered `nspace`. -/
structure PathEntry where
  agent : String
  nspace : String
  publishes : List String
deriving DecidableEq, Repr

/-- One record of `detect_cycles`' result list (`anomaly_detector.py` lines
161–166). -/
structure CycleFinding where
  cycle : List String
  path : List PathEntry
  severity : String
  message : String
deriving DecidableEq, Repr

/-- The adjacency of the derived agent-level graph (`anomaly_detector.py`
lines 110–120): the agents subscribing to some event published by `a`,
excluding `a` itself, deduplicated (the Python code accumulates them into a
`set`; we keep first-occurrence order). -/
def agentGraphAdj (g : Graph) (a : NamespacedItem) : List NamespacedItem :=
  addKeys []
    (((lookupList g.publications a).map
        (fun e => (lookupList g.event_to_subscribers e).filter
          (fun s => decide (s ≠ a)))).foldr (fun l acc => l ++ acc) [])

/-- `list.index` (used at `anomaly_detector.py` line 140): position of the
first occurrence, `none` when absent (Python raises `ValueError`). -/
def idxOf {α : Type} [DecidableEq α] : List α → α → Option Nat
  | [], _ => none
  | x :: xs, a => if x = a then some 0 else (idxOf xs a).map (fun n => n + 1)

/-- The connecting events of one hop (`anomaly_detector.py` lines 150–153):
names of the events `current` publishes that `next` subscribes to. -/
def connectingEvents (g : Graph) (current next : NamespacedItem) : List String :=
  ((lookupList g.publications current).filter
    (fun e => decide (next ∈ lookupList g.event_to_subscribers e))).map
    (fun e => e.name)

/-- The `detailed_path` reconstruction (`anomaly_detector.py` lines 144–159):
for every index `i` of the cycle slice, pair agent `i` with the connecting
events towards agent `(i+1) mod length`. -/
def detailedPath (g : Graph) (cycleAgents : List NamespacedItem) : List PathEntry :=
  (List.range cycleAgents.length).map (fun i =>
    let current := cycleAgents.getD i ⟨"", ""⟩
    let next := cycleAgents.getD ((i + 1) % cycleAgents.length) ⟨"", ""⟩
    ⟨current.name, current.nspace, connectingEvents g current next⟩)

/-- The cycle record appended at `anomaly_detector.py` lines 161–166. -/
def mkCycleFinding (g : Graph) (cycleAgents : List NamespacedItem) : CycleFinding :=
  ⟨cycleAgents.map (fun a => a.name),
    detailedPath g cycleAgents,
    "warning",
    "Circular dependency detected: " ++
      String.intercalate " -> " (cycleAgents.map (fun a => a.name)) ++
      " -> " ++ (cycleAgents.getD 0 ⟨"", ""⟩).name⟩

/-- The mutable state shared by `detect_cycles`' nested `dfs` closure:
`visited`, `rec_stack` (both sets, modelled as lists with membership), the
current `path` list, and the `cycles` accumulator. -/
structure DfsState where
  visited : List NamespacedItem
  recStack : List NamespacedItem
  path : List NamespacedItem
  cycles : List CycleFinding
deriving Repr

/-- One iteration of the `for neighbor in agent_graph.get(agent, [])` loop
of `dfs` (`anomaly_detector.py` lines 134–167): once the loop has decided to
return `True` (or an exception is pending) the remaining iterations are
skipped; an unvisited neighbor is recursed into (through `rec`, the
fuel-smaller `dfs`); a visited neighbor on the recursion stack closes a
cycle: the current path is sliced at `path.index(neighbor)` — which raises
`ValueError` when the neighbor is not on the current path — the cycle record
is appended, and the loop returns `True`. -/
def dfsNeighborStep (g : Graph)
    (rec : NamespacedItem → DfsState → Except String (DfsState × Bool))
    (acc : Except String (DfsState × Bool)) (n : NamespacedItem) :
    Except String (DfsState × Bool) :=
  match acc with
  | .error e => .error e
  | .ok (s, true) => .ok (s, true)
  | .ok (s, false) =>
      if n ∈ s.visited then
        if n ∈ s.recStack then
          match idxOf s.path n with
          | none => .error "ValueError"
          | some i =>
              .ok ({ s with cycles := s.cycles ++ [mkCycleFinding g (s.path.drop i)] },
                true)
        else .ok (s, false)
      else rec n s

/-- The `dfs` closure of `detect_cycles` (`anomaly_detector.py` lines
128–171), fuel-bounded (in Python the depth is bounded by the number of
distinct agents, since `dfs` is only entered on unvisited agents).  Returns
the updated state and the boolean `dfs` returns.  Crucially, when a cycle is
found (`return True` at lines 137 and 167) the code does NOT pop `path` nor
remove `agent` from `rec_stack`; both cleanups happen only on the
`return False` path. -/
def dfs (g : Graph) :
    Nat → NamespacedItem → DfsState → Except String (DfsState × Bool)
  | 0, _, _ => .error "RecursionError"
  | fuel + 1, agent, s =>
      let s1 : DfsState :=
        { visited := agent :: s.visited
          recStack := agent :: s.recStack
          path := s.path ++ [agent]
          cycles := s.cycles }
      match (agentGraphAdj g agent).foldl
          (dfsNeighborStep g (fun n s => dfs g fuel n s)) (.ok (s1, false)) with
      | .error e => .error e
      | .ok (s2, true) => .ok (s2, true)
      | .ok (s2, false) =>
          .ok ({ s2 with
                  path := s2.path.dropLast
                  recStack := s2.recStack.erase agent }, false)

/-- The `for agent in all_agents` root loop of `detect_cycles`
(`anomaly_detector.py` lines 174–177): for each unvisited agent, reset `path`
to `[]` (but NOT `visited`, `rec_stack` or `cycles`) and run `dfs`. -/
def dfsRootsLoop (g : Graph) (fuel : Nat) :
    List NamespacedItem → DfsState → Except String DfsState
  | [], s => .ok s
  | a :: rest, s =>
      if a ∈ s.visited then dfsRootsLoop g fuel rest s
      else
        match dfs g fuel a { s with path := [] } with
        | .error e => .error e
        | .ok (s', _) => dfsRootsLoop g fuel rest s'

/-- Fuel sufficient for the cycle DFS: the depth never exceeds the number of
distinct visitable agents plus one, and every visitable agent is either a
root or occurs in some `event_to_subscribers` value list. -/
def cyclesFuel (g : Graph) : Nat :=
  1 + (allAgentsList g).length +
    (g.event_to_subscribers.map (fun p => p.2.length)).sum

/-- `detect_cycles` with an explicit root order (Python iterates the
`all_agents` set in unspecified order). -/
def detectCyclesFromRoots (g : Graph) (roots : List NamespacedItem) :
    Except String (List CycleFinding) :=
  match dfsRootsLoop g (cyclesFuel g) roots ⟨[], [], [], []⟩ with
  | .error e => .error e
  | .ok s => .ok s.cycles

/-- `detect_cycles` (`anomaly_detector.py` lines 94–179), iterating roots in
our deterministic insertion order. -/
def detect_cycles (g : Graph) : Except String (List CycleFinding) :=
  detectCyclesFromRoots g (allAgentsList g)

/-- One record of `detect_isolated_agents`' result list. -/
structure IsolatedFinding where
  agent : String
  nspace : String
  severity : String
  message : String
deriving DecidableEq, Repr

/-- `agent in self.analyzer.publications and len(self.analyzer.publications[agent]) > 0`
(`anomaly_detector.py` line 200): key present with a non-empty list. -/
def hasNonemptyEntry (m : EMap) (a : NamespacedItem) : Bool :=
  match m.find? (fun p => decide (p.1 = a)) with
  | some p => !p.2.isEmpty
  | none => false

/-- The loop of `detect_isolated_agents` (`anomaly_detector.py` lines
199–209). -/
def isolatedLoop (g : Graph) : List NamespacedItem → List IsolatedFinding
  | [] => []
  | a :: rest =>
      (if !hasNonemptyEntry g.publications a && !hasNonemptyEntry g.subscriptions a
        then [⟨a.name, a.nspace, "info",
          "Agent '" ++ a.name ++ "' is isolated (no subscriptions or publications)"⟩]
        else []) ++ isolatedLoop g rest

/-- `detect_isolated_agents` (`anomaly_detector.py` lines 181–211). -/
def detect_isolated_agents (g : Graph) : List IsolatedFinding :=
  isolatedLoop g (allAgentsList g)

/-- The dictionary returned by `detect_all` (`anomaly_detector.py` lines
35–49).  `detect_cycles` can raise, so the whole report is an `Except`. -/
structure AnomalyReport where
  orphaned_events : List OrphanFinding
  cycles : List CycleFinding
  isolated_agents : List IsolatedFinding
deriving DecidableEq, Repr

/-- `detect_all` (`anomaly_detector.py` lines 35–49). -/
def detect_all (g : Graph) : Except String AnomalyReport :=
  match detect_cycles g with
  | .error e => .error e
  | .ok cs => .ok ⟨detect_orphaned_events g, cs, detect_isolated_agents g⟩

/-- The summary counts returned by `get_anomaly_summary` (`anomaly_detector.py`
lines 213–233). -/
structure AnomalySummary where
  orphaned_events_count : Nat
  cycles_count : Nat
  isolated_agents_count : Nat
  total_anomalies : Nat
deriving DecidableEq, Repr

/-- `get_anomaly_summary` (`anomaly_detector.py` lines 213–233): the three
category counts plus their sum. -/
def get_anomaly_summary (g : Graph) : Except String AnomalySummary :=
  match detect_all g with
  | .error e => .error e
  | .ok r =>
      .ok ⟨r.orphaned_events.length, r.cycles.length, r.isolated_agents.length,
        r.orphaned_events.length + r.cycles.length + r.isolated_agents.length⟩

/-! ## Helper lemmas about the dict embedding -/

/-- Occurrence count of `x` in `l` (Python `list.count`). -/
def countOcc {α : Type} [DecidableEq α] (l : List α) (x : α) : Nat :=
  (l.filter (fun y => decide (y = x))).length

theorem countOcc_nil {α : Type} [DecidableEq α] (x : α) : countOcc [] x = 0 := rfl

theorem countOcc_append {α : Type} [DecidableEq α] (l₁ l₂ : List α) (x : α) :
    countOcc (l₁ ++ l₂) x = countOcc l₁ x + countOcc l₂ x := by
  simp [countOcc, List.filter_append]

theorem countOcc_singleton {α : Type} [DecidableEq α] (v x : α) :
    countOcc [v] x = if v = x then 1 else 0 := by
  by_cases h : v = x <;> simp [countOcc, h]

theorem lookupList_nil (k : NamespacedItem) : lookupList [] k = [] := rfl

theorem lookupList_cons_eq (pk : NamespacedItem) (pv : List NamespacedItem)
    (m : EMap) : lookupList ((pk, pv) :: m) pk = pv := by
  simp [lookupList, List.find?]

theorem lookupList_cons_ne (pk : NamespacedItem) (pv : List NamespacedItem)
    (m : EMap) (k' : NamespacedItem) (h : ¬ pk = k') :
    lookupList ((pk, pv) :: m) k' = lookupList m k' := by
  simp [lookupList, List.find?, h]

theorem lookupList_appendTo (m : EMap) (k v k' : NamespacedItem) :
    lookupList (appendTo m k v) k' =
      if k' = k then lookupList m k ++ [v] else lookupList m k' := by
  induction m with
  | nil =>
      by_cases h : k' = k
      · subst h; simp [appendTo, lookupList, List.find?]
      · have h' : ¬ k = k' := fun hh => h hh.symm
        simp [appendTo, lookupList, List.find?, h, h']
  | cons p rest ih =>
      obtain ⟨pk, pv⟩ := p
      by_cases hp : pk = k
      · subst hp
        have ha : appendTo ((pk, pv) :: rest) pk v = (pk, pv ++ [v]) :: rest := by
          simp [appendTo]
        rw [ha]
        by_cases h : k' = pk
        · subst h
          rw [lookupList_cons_eq, if_pos rfl, lookupList_cons_eq]
        · have h' : ¬ pk = k' := fun hh => h hh.symm
          rw [lookupList_cons_ne _ _ _ _ h', if_neg h, lookupList_cons_ne _ _ _ _ h']
      · have ha : appendTo ((pk, pv) :: rest) k v = (pk, pv) :: appendTo rest k v := by
          simp [appendTo, hp]
        rw [ha]
        by_cases h1 : pk = k'
        · subst h1
          rw [lookupList_cons_eq, if_neg hp, lookupList_cons_eq]
        · rw [lookupList_cons_ne _ _ _ _ h1, ih]
          by_cases h : k' = k
          · subst h
            rw [if_pos rfl, if_pos rfl, lookupList_cons_ne _ _ _ _ h1]
          · rw [if_neg h, if_neg h, lookupList_cons_ne _ _ _ _ h1]

theorem mem_addKeys {α : Type} [DecidableEq α] (l acc : List α) (x : α) :
    x ∈ addKeys acc l ↔ x ∈ acc ∨ x ∈ l := by
  induction l generalizing acc with
  | nil => simp [addKeys]
  | cons y l ih =>
      by_cases hy : y ∈ acc
      · simp only [addKeys, if_pos hy, ih, List.mem_cons]
        constructor
        · rintro (h | h)
          · exact Or.inl h
          · exact Or.inr (Or.inr h)
        · rintro (h | h | h)
          · exact Or.inl h
          · exact Or.inl (h ▸ hy)
          · exact Or.inr h
      · simp only [addKeys, if_neg hy, ih, List.mem_append, List.mem_singleton,
          List.mem_cons]
        tauto

theorem addKeys_nodup {α : Type} [DecidableEq α] (l acc : List α)
    (h : acc.Nodup) : (addKeys acc l).Nodup := by
  induction l generalizing acc with
  | nil => exact h
  | cons y l ih =>
      by_cases hy : y ∈ acc
      · simpa [addKeys, if_pos hy] using ih acc h
      · have dj : acc.Disjoint [y] := by
          intro x hx hxy
          rw [List.mem_singleton] at hxy
          subst hxy
          exact hy hx
        simpa [addKeys, if_neg hy] using ih _ (h.append (List.nodup_singleton y) dj)

/-! ## C1: transpose invariant -/

/-- The transpose-consistency invariant of spec §3 (I1) / §8, stated with
multiplicities. -/
def TransposeInv (g : Graph) : Prop :=
  (∀ a e, countOcc (lookupList g.subscriptions a) e =
      countOcc (lookupList g.event_to_subscribers e) a) ∧
  (∀ a e, countOcc (lookupList g.publications a) e =
      countOcc (lookupList g.event_to_publishers e) a)

theorem countOcc_lookup_appendTo (m : EMap) (k v k' v' : NamespacedItem) :
    countOcc (lookupList (appendTo m k v) k') v' =
      countOcc (lookupList m k') v' +
        (if k' = k ∧ v' = v then 1 else 0) := by
  rw [lookupList_appendTo]
  by_cases hk : k' = k
  · subst hk
    rw [if_pos rfl, countOcc_append, countOcc_singleton]
    by_cases hv : v' = v
    · simp [hv]
    · have : ¬ v = v' := fun h => hv h.symm
      simp [hv, this]
  · simp [hk]

theorem transposeInv_recordSub (g : Graph) (agent ev : NamespacedItem)
    (h : TransposeInv g) : TransposeInv (recordSub agent g ev) := by
  obtain ⟨hs, hp⟩ := h
  constructor
  · intro a e
    show countOcc (lookupList (appendTo g.subscriptions agent ev) a) e =
      countOcc (lookupList (appendTo g.event_to_subscribers ev agent) e) a
    rw [countOcc_lookup_appendTo, countOcc_lookup_appendTo, hs a e]
    congr 1
    by_cases h1 : a = agent <;> by_cases h2 : e = ev <;> simp [h1, h2]
  · intro a e
    exact hp a e

theorem transposeInv_recordPub (g : Graph) (agent ev : NamespacedItem)
    (h : TransposeInv g) : TransposeInv (recordPub agent g ev) := by
  obtain ⟨hs, hp⟩ := h
  constructor
  · intro a e
    exact hs a e
  · intro a e
    show countOcc (lookupList (appendTo g.publications agent ev) a) e =
      countOcc (lookupList (appendTo g.event_to_publishers ev agent) e) a
    rw [countOcc_lookup_appendTo, countOcc_lookup_appendTo, hp a e]
    congr 1
    by_cases h1 : a = agent <;> by_cases h2 : e = ev <;> simp [h1, h2]

theorem transposeInv_foldl_recordSub (agent : NamespacedItem)
    (f : String → NamespacedItem) (names : List String) (g : Graph)
    (h : TransposeInv g) :
    TransposeInv (names.foldl (fun g sn => recordSub agent g (f sn)) g) := by
  induction names generalizing g with
  | nil => exact h
  | cons n names ih => exact ih _ (transposeInv_recordSub _ _ _ h)

theorem transposeInv_foldl_recordPub (agent : NamespacedItem)
    (f : String × String → NamespacedItem) (pairs : List (String × String))
    (g : Graph) (h : TransposeInv g) :
    TransposeInv (pairs.foldl (fun g p => recordPub agent g (f p)) g) := by
  induction pairs generalizing g with
  | nil => exact h
  | cons p pairs ih => exact ih _ (transposeInv_recordPub _ _ _ h)

theorem transposeInv_analyzeFile (idx : NsIndex) (an : String)
    (pubs subs : List String) (g : Graph) (h : TransposeInv g) :
    TransposeInv (analyzeFile idx an pubs subs g) := by
  unfold analyzeFile
  exact transposeInv_foldl_recordPub _ _ _ _
    (transposeInv_foldl_recordSub _ _ _ _ h)

theorem transposeInv_emptyGraph : TransposeInv emptyGraph := by
  constructor <;> intro a e <;> rfl

theorem transposeInv_foldl_calls (idx : NsIndex) (calls : List IngestCall)
    (g : Graph) (h : TransposeInv g) :
    TransposeInv (calls.foldl
      (fun g c => analyzeFile idx c.agentName c.publishedNames c.subscribedNames g) g) := by
  induction calls generalizing g with
  | nil => exact h
  | cons c calls ih => exact ih _ (transposeInv_analyzeFile _ _ _ _ _ h)

theorem transposeInv_applyCalls (idx : NsIndex) (calls : List IngestCall) :
    TransposeInv (applyCalls idx calls) :=
  transposeInv_foldl_calls idx calls emptyGraph transposeInv_emptyGraph

/-- C1: after any sequence of ingestion calls, for every agent `a` and event
`e`, `e` occurs in `subscriptions[a]` exactly as many times as `a` occurs in
`event_to_subscribers[e]`, and `e` occurs in `publications[a]` exactly as many
times as `a` occurs in `event_to_publishers[e]`.  Since `calls` ranges over
all call sequences, every state observable between calls satisfies the
invariant (each `_analyze_file` call appends the paired entries to both sides
simultaneously, as shown by the per-step lemmas `transposeInv_recordSub` and
`transposeInv_recordPub`). -/
theorem C1_transpose_invariant (idx : NsIndex) (calls : List IngestCall)
    (a e : NamespacedItem) :
    countOcc (lookupList (applyCalls idx calls).subscriptions a) e =
      countOcc (lookupList (applyCalls idx calls).event_to_subscribers e) a ∧
    countOcc (lookupList (applyCalls idx calls).publications a) e =
      countOcc (lookupList (applyCalls idx calls).event_to_publishers e) a :=
  ⟨(transposeInv_applyCalls idx calls).1 a e,
    (transposeInv_applyCalls idx calls).2 a e⟩

/-! ## C10: no isolated agents are reachable through ingestion -/

/-- Every value list stored in `subscriptions` and `publications` is
non-empty: keys are only ever materialized together with their first
appended element. -/
def NonemptyVals (g : Graph) : Prop :=
  (∀ p ∈ g.subscriptions, p.2 ≠ ([] : List NamespacedItem)) ∧
  (∀ p ∈ g.publications, p.2 ≠ ([] : List NamespacedItem))

theorem appendTo_nonempty_vals (m : EMap) (k v : NamespacedItem)
    (h : ∀ p ∈ m, p.2 ≠ ([] : List NamespacedItem)) :
    ∀ p ∈ appendTo m k v, p.2 ≠ ([] : List NamespacedItem) := by
  induction m with
  | nil =>
      intro p hp
      simp [appendTo] at hp
      subst hp
      simp
  | cons q rest ih =>
      intro p hp
      by_cases hq : q.1 = k
      · rw [show appendTo (q :: rest) k v = (q.1, q.2 ++ [v]) :: rest by
          simp [appendTo, hq]] at hp
        rcases List.mem_cons.mp hp with h1 | h1
        · subst h1; simp
        · exact h p (List.mem_cons_of_mem q h1)
      · rw [show appendTo (q :: rest) k v = q :: appendTo rest k v by
          simp [appendTo, hq]] at hp
        rcases List.mem_cons.mp hp with h1 | h1
        · rw [h1]; exact h q (List.mem_cons_self q rest)
        · exact ih (fun p hp => h p (List.mem_cons_of_mem q hp)) p h1

theorem nonemptyVals_recordSub (g : Graph) (agent ev : NamespacedItem)
    (h : NonemptyVals g) : NonemptyVals (recordSub agent g ev) :=
  ⟨appendTo_nonempty_vals _ _ _ h.1, h.2⟩

theorem nonemptyVals_recordPub (g : Graph) (agent ev : NamespacedItem)
    (h : NonemptyVals g) : NonemptyVals (recordPub agent g ev) :=
  ⟨h.1, appendTo_nonempty_vals _ _ _ h.2⟩

theorem nonemptyVals_analyzeFile (idx : NsIndex) (an : String)
    (pubs subs : List String) (g : Graph) (h : NonemptyVals g) :
    NonemptyVals (analyzeFile idx an pubs subs g) := by
  unfold analyzeFile
  have h1 : ∀ (names : List String) (g : Graph), NonemptyVals g →
      NonemptyVals (names.foldl
        (fun g sn => recordSub ⟨an, inferAgentNamespace
          (pubs.map (fun en => (en, resolveNS idx en)))⟩ g
          ⟨sn, resolveNS idx sn⟩) g) := by
    intro names
    induction names with
    | nil => intro g hg; exact hg
    | cons n names ih =>
        intro g hg
        exact ih _ (nonemptyVals_recordSub _ _ _ hg)
  have h2 : ∀ (pairs : List (String × String)) (g : Graph), NonemptyVals g →
      NonemptyVals (pairs.foldl
        (fun g p => recordPub ⟨an, inferAgentNamespace
          (pubs.map (fun en => (en, resolveNS idx en)))⟩ g ⟨p.1, p.2⟩) g) := by
    intro pairs
    induction pairs with
    | nil => intro g hg; exact hg
    | cons p pairs ih =>
        intro g hg
        exact ih _ (nonemptyVals_recordPub _ _ _ hg)
  exact h2 _ _ (h1 _ _ h)

theorem nonemptyVals_applyCalls (idx : NsIndex) (calls : List IngestCall) :
    NonemptyVals (applyCalls idx calls) := by
  unfold applyCalls
  have : ∀ (cs : List IngestCall) (g : Graph), NonemptyVals g →
      NonemptyVals (cs.foldl (fun g c =>
        analyzeFile idx c.agentName c.publishedNames c.subscribedNames g) g) := by
    intro cs
    induction cs with
    | nil => intro g hg; exact hg
    | cons c cs ih =>
        intro g hg
        exact ih _ (nonemptyVals_analyzeFile _ _ _ _ _ hg)
  exact this calls emptyGraph
    ⟨fun p hp => absurd hp (List.not_mem_nil p),
      fun p hp => absurd hp (List.not_mem_nil p)⟩

theorem hasNonemptyEntry_of_mem_keys (m : EMap) (a : NamespacedItem)
    (hmem : a ∈ keysOf m) (h : ∀ p ∈ m, p.2 ≠ ([] : List NamespacedItem)) :
    hasNonemptyEntry m a = true := by
  obtain ⟨p, hp, hp1⟩ := List.mem_map.mp hmem
  have hsome : (m.find? (fun p => decide (p.1 = a))).isSome := by
    rw [List.find?_isSome]
    exact ⟨p, hp, by simp [hp1]⟩
  obtain ⟨q, hq⟩ := Option.isSome_iff_exists.mp hsome
  have hqm : q ∈ m := List.mem_of_find?_eq_some hq
  have hne := h q hqm
  unfold hasNonemptyEntry
  rw [hq]
  simpa [List.isEmpty_iff] using hne

theorem isolatedLoop_eq_nil (g : Graph) (L : List NamespacedItem)
    (h : ∀ a ∈ L, hasNonemptyEntry g.publications a = true ∨
      hasNonemptyEntry g.subscriptions a = true) :
    isolatedLoop g L = [] := by
  induction L with
  | nil => rfl
  | cons a L ih =>
      have ha := h a (List.mem_cons_self a L)
      have hcond : (!hasNonemptyEntry g.publications a &&
          !hasNonemptyEntry g.subscriptions a) = false := by
        rcases ha with h1 | h1 <;> simp [h1]
      simp only [isolatedLoop, hcond, Bool.false_eq_true, if_neg]
      simpa using ih (fun a ha => h a (List.mem_cons_of_mem _ ha))

/-- C10: for every graph reachable through ingestion alone, the
isolated-agents check returns the empty list — an agent becomes a key of
`subscriptions` or `publications` only by the same step that appends its
first event, so every member of `get_all_agents` has a non-empty publication
or subscription list. -/
theorem C10_no_isolated_agents_reachable (idx : NsIndex)
    (calls : List IngestCall) :
    detect_isolated_agents (applyCalls idx calls) = [] := by
  have hne := nonemptyVals_applyCalls idx calls
  unfold detect_isolated_agents
  apply isolatedLoop_eq_nil
  intro a ha
  unfold allAgentsList at ha
  rcases (mem_addKeys _ _ _).mp ha with h | h
  · cases h
  · rcases List.mem_append.mp h with h | h
    · exact Or.inr (hasNonemptyEntry_of_mem_keys _ _ h hne.1)
    · exact Or.inl (hasNonemptyEntry_of_mem_keys _ _ h hne.2)

/-! ## C2: orphan correctness -/

theorem mem_orphanLoop (g : Graph) (L : List NamespacedItem) (f : OrphanFinding) :
    f ∈ orphanLoop g L ↔ ∃ e ∈ L, f ∈ orphanBranch g e := by
  induction L with
  | nil => simp [orphanLoop]
  | cons a L ih =>
      simp only [orphanLoop, List.mem_append, ih, List.mem_cons]
      constructor
      · rintro (h | ⟨e, he, hf⟩)
        · exact ⟨a, Or.inl rfl, h⟩
        · exact ⟨e, Or.inr he, hf⟩
      · rintro ⟨e, he | he, hf⟩
        · exact Or.inl (he ▸ hf)
        · exact Or.inr ⟨e, he, hf⟩

theorem npFinding_ne_nsFinding (e e' : NamespacedItem) :
    npFinding e ≠ nsFinding e' := by
  intro h
  have h2 : ("never_published" : String) = "never_subscribed" :=
    congrArg OrphanFinding.type h
  exact absurd h2 (by decide)

theorem npFinding_inj (e e' : NamespacedItem) (h : npFinding e = npFinding e') :
    e = e' := by
  have h1 := congrArg OrphanFinding.event h
  have h2 := congrArg OrphanFinding.nspace h
  cases e; cases e'
  simp [npFinding] at h1 h2
  simp [h1, h2]

theorem nsFinding_inj (e e' : NamespacedItem) (h : nsFinding e = nsFinding e') :
    e = e' := by
  have h1 := congrArg OrphanFinding.event h
  have h2 := congrArg OrphanFinding.nspace h
  cases e; cases e'
  simp [nsFinding] at h1 h2
  simp [h1, h2]

theorem mem_orphanBranch_np (g : Graph) (e e' : NamespacedItem) :
    npFinding e ∈ orphanBranch g e' ↔
      e = e' ∧ lookupList g.event_to_publishers e' = [] := by
  unfold orphanBranch
  constructor
  · intro h
    rcases List.mem_append.mp h with h1 | h1
    · by_cases hp : (lookupList g.event_to_publishers e').isEmpty
      · rw [if_pos hp] at h1
        rcases List.mem_singleton.mp h1 with h2
        exact ⟨npFinding_inj _ _ h2, List.isEmpty_iff.mp hp⟩
      · rw [if_neg hp] at h1
        cases h1
    · by_cases hs : (lookupList g.event_to_subscribers e').isEmpty
      · rw [if_pos hs] at h1
        exact absurd (List.mem_singleton.mp h1) (npFinding_ne_nsFinding e e')
      · rw [if_neg hs] at h1
        cases h1
  · rintro ⟨rfl, hp⟩
    apply List.mem_append.mpr
    left
    rw [if_pos (List.isEmpty_iff.mpr hp)]
    exact List.mem_singleton.mpr rfl

theorem mem_orphanBranch_ns (g : Graph) (e e' : NamespacedItem) :
    nsFinding e ∈ orphanBranch g e' ↔
      e = e' ∧ lookupList g.event_to_subscribers e' = [] := by
  unfold orphanBranch
  constructor
  · intro h
    rcases List.mem_append.mp h with h1 | h1
    · by_cases hp : (lookupList g.event_to_publishers e').isEmpty
      · rw [if_pos hp] at h1
        exact absurd (List.mem_singleton.mp h1).symm (npFinding_ne_nsFinding e' e)
      · rw [if_neg hp] at h1
        cases h1
    · by_cases hs : (lookupList g.event_to_subscribers e').isEmpty
      · rw [if_pos hs] at h1
        rcases List.mem_singleton.mp h1 with h2
        exact ⟨nsFinding_inj _ _ h2, List.isEmpty_iff.mp hs⟩
      · rw [if_neg hs] at h1
        cases h1
  · rintro ⟨rfl, hs⟩
    apply List.mem_append.mpr
    right
    rw [if_pos (List.isEmpty_iff.mpr hs)]
    exact List.mem_singleton.mpr rfl

/-- The predicate "this finding record is about event `e`" (both the event
name and the namespace must match). -/
def matchesEvent (e : NamespacedItem) (f : OrphanFinding) : Bool :=
  decide (f.event = e.name ∧ f.nspace = e.nspace)

theorem countP_orphanBranch_ne (g : Graph) (e e' : NamespacedItem)
    (h : e' ≠ e) : (orphanBranch g e').countP (matchesEvent e) = 0 := by
  have hnp : matchesEvent e (npFinding e') = false := by
    simp only [matchesEvent, npFinding, decide_eq_false_iff_not]
    rintro ⟨h1, h2⟩
    exact h (by cases e; cases e'; simp_all)
  have hns : matchesEvent e (nsFinding e') = false := by
    simp only [matchesEvent, nsFinding, decide_eq_false_iff_not]
    rintro ⟨h1, h2⟩
    exact h (by cases e; cases e'; simp_all)
  unfold orphanBranch
  rw [List.countP_append]
  by_cases hp : (lookupList g.event_to_publishers e').isEmpty <;>
    by_cases hs : (lookupList g.event_to_subscribers e').isEmpty <;>
      simp [hp, hs, List.countP_cons, List.countP_nil, hnp, hns]

theorem countP_orphanLoop_not_mem (g : Graph) (e : NamespacedItem)
    (L : List NamespacedItem) (h : e ∉ L) :
    (orphanLoop g L).countP (matchesEvent e) = 0 := by
  induction L with
  | nil => rfl
  | cons a L ih =>
      have ha : a ≠ e := fun hh => h (hh ▸ List.mem_cons_self a L)
      simp only [orphanLoop, List.countP_append,
        countP_orphanBranch_ne g e a ha,
        ih (fun hh => h (List.mem_cons_of_mem a hh))]

theorem countP_orphanLoop_mem (g : Graph) (e : NamespacedItem)
    (L : List NamespacedItem) (hnd : L.Nodup) (he : e ∈ L)
    (hp : lookupList g.event_to_publishers e = [])
    (hs : lookupList g.event_to_subscribers e = []) :
    (orphanLoop g L).countP (matchesEvent e) = 2 := by
  induction L with
  | nil => cases he
  | cons a L ih =>
      rcases List.mem_cons.mp he with h1 | h1
      · subst h1
        have hnotmem : e ∉ L := (List.nodup_cons.mp hnd).1
        have hbranch : (orphanBranch g e).countP (matchesEvent e) = 2 := by
          unfold orphanBranch
          rw [if_pos (List.isEmpty_iff.mpr hp), if_pos (List.isEmpty_iff.mpr hs)]
          have h1 : matchesEvent e (npFinding e) = true := by
            simp [matchesEvent, npFinding]
          have h2 : matchesEvent e (nsFinding e) = true := by
            simp [matchesEvent, nsFinding]
          simp [List.countP_cons, List.countP_nil, h1, h2]
        simp only [orphanLoop, List.countP_append, hbranch,
          countP_orphanLoop_not_mem g e L hnotmem]
      · have ha : a ≠ e := by
          intro hh
          subst hh
          exact (List.nodup_cons.mp hnd).1 h1
        simp only [orphanLoop, List.countP_append,
          countP_orphanBranch_ne g e a ha,
          ih (List.nodup_cons.mp hnd).2 h1, Nat.zero_add]

theorem allEventsList_nodup (g : Graph) : (allEventsList g).Nodup :=
  addKeys_nodup _ [] List.nodup_nil

/-- C2: for every graph and every event in `get_all_events`, a
`never_published` finding (severity `warning`) is emitted iff
`event_to_publishers` has no entries for the event, a `never_subscribed`
finding (severity `info`) is emitted iff `event_to_subscribers` has no
entries for it, and an event satisfying both yields exactly two finding
records. -/
theorem C2_orphan_correctness (g : Graph) (e : NamespacedItem)
    (he : e ∈ allEventsList g) :
    ((npFinding e ∈ detect_orphaned_events g) ↔
      lookupList g.event_to_publishers e = []) ∧
    ((nsFinding e ∈ detect_orphaned_events g) ↔
      lookupList g.event_to_subscribers e = []) ∧
    (lookupList g.event_to_publishers e = [] →
      lookupList g.event_to_subscribers e = [] →
      (detect_orphaned_events g).countP (matchesEvent e) = 2) := by
  refine ⟨?_, ?_, ?_⟩
  · constructor
    · intro h
      obtain ⟨e', _, hf⟩ := (mem_orphanLoop g _ _).mp h
      obtain ⟨rfl, hp⟩ := (mem_orphanBranch_np g e e').mp hf
      exact hp
    · intro hp
      exact (mem_orphanLoop g _ _).mpr
        ⟨e, he, (mem_orphanBranch_np g e e).mpr ⟨rfl, hp⟩⟩
  · constructor
    · intro h
      obtain ⟨e', _, hf⟩ := (mem_orphanLoop g _ _).mp h
      obtain ⟨rfl, hs⟩ := (mem_orphanBranch_ns g e e').mp hf
      exact hs
    · intro hs
      exact (mem_orphanLoop g _ _).mpr
        ⟨e, he, (mem_orphanBranch_ns g e e).mpr ⟨rfl, hs⟩⟩
  · intro hp hs
    exact countP_orphanLoop_mem g e _ (allEventsList_nodup g) he hp hs

/-- A graph holding one fully disconnected event: `event_to_subscribers` has
the key with an empty list, `event_to_publishers` lacks the key. -/
def gOrphan : Graph := ⟨[], [], [(⟨"W", "n"⟩, [])], []⟩

/-- Witness for C2 at a concrete graph: the fully disconnected event `W`
yields both findings and exactly two records. -/
theorem C2_orphan_correctness_witness :
    npFinding ⟨"W", "n"⟩ ∈ detect_orphaned_events gOrphan ∧
    nsFinding ⟨"W", "n"⟩ ∈ detect_orphaned_events gOrphan ∧
    (detect_orphaned_events gOrphan).countP (matchesEvent ⟨"W", "n"⟩) = 2 := by
  have h := C2_orphan_correctness gOrphan ⟨"W", "n"⟩ (by decide)
  exact ⟨h.1.mpr (by decide), h.2.1.mpr (by decide),
    h.2.2 (by decide) (by decide)⟩

/-! ## C7: entry points of `get_event_chains` -/

/-- C7: an event is an entry point iff it is a key of `event_to_publishers`
and entirely absent as a key of `event_to_subscribers`; a key of
`event_to_subscribers` holding the empty list is not an entry point even
though the orphan check classifies the same event as `never_subscribed`. -/
theorem C7_entry_point_key_absence (g : Graph) (e : NamespacedItem) :
    (e ∈ entry_events g ↔
      e ∈ keysOf g.event_to_publishers ∧ e ∉ keysOf g.event_to_subscribers) ∧
    (e ∈ keysOf g.event_to_subscribers →
      lookupList g.event_to_subscribers e = [] →
      e ∉ entry_events g ∧ nsFinding e ∈ detect_orphaned_events g) := by
  have hiff : e ∈ entry_events g ↔
      e ∈ keysOf g.event_to_publishers ∧ e ∉ keysOf g.event_to_subscribers := by
    unfold entry_events
    rw [List.mem_filter]
    simp only [decide_eq_true_iff]
  refine ⟨hiff, ?_⟩
  intro hk hempty
  constructor
  · intro hmem
    exact (hiff.mp hmem).2 hk
  · have he : e ∈ allEventsList g := by
      unfold allEventsList
      exact (mem_addKeys _ _ _).mpr (Or.inr (List.mem_append.mpr (Or.inl hk)))
    exact (mem_orphanLoop g _ _).mpr
      ⟨e, he, (mem_orphanBranch_ns g e e).mpr ⟨rfl, hempty⟩⟩

/-- A graph where event `Z` is published and has an empty (but present)
subscriber entry. -/
def gEmptySub : Graph := ⟨[], [], [(⟨"Z", "n"⟩, [])], [(⟨"Z", "n"⟩, [⟨"P", "n"⟩])]⟩

/-- Witness for C7 at a concrete graph: `Z` has an empty-but-present
subscriber entry, so it is not an entry point although the orphan check
reports it as `never_subscribed`. -/
theorem C7_entry_point_key_absence_witness :
    (⟨"Z", "n"⟩ : NamespacedItem) ∉ entry_events gEmptySub ∧
    nsFinding ⟨"Z", "n"⟩ ∈ detect_orphaned_events gEmptySub :=
  (C7_entry_point_key_absence gEmptySub ⟨"Z", "n"⟩).2 (by decide) (by decide)

/-! ## Concrete scenario graphs -/

/-- Scenario B of spec §8: `AgentA` publishes `EventX` and subscribes to
`EventY`; `AgentB` subscribes to `EventX` and publishes `EventY`.  No
namespace declarations, so everything resolves to `default`. -/
def gScenB : Graph := applyCalls []
  [⟨"AgentA", ["EventX"], ["EventY"]⟩, ⟨"AgentB", ["EventY"], ["EventX"]⟩]

/-- A reachable graph on which `detect_cycles` raises: `AgentA` and `AgentB`
form a two-cycle (via `E1`/`E2`) and `AgentC` publishes `E3`, which `AgentA`
subscribes to.  After the first DFS root reports the A–B cycle, `AgentA` and
`AgentB` are left on `rec_stack`; the root traversal from `AgentC` then
reaches `AgentA`, finds it on `rec_stack`, and `path.index(AgentA)` fails on
the current path `[AgentC]`. -/
def gCrash : Graph := applyCalls []
  [⟨"AgentA", ["E1"], ["E2", "E3"]⟩, ⟨"AgentB", ["E2"], ["E1"]⟩,
   ⟨"AgentC", ["E3"], []⟩]

/-- A reachable graph whose derived agent graph is one weakly-connected
component containing two vertex-disjoint cycles: `AgentA↔AgentB` (via
`E1`/`E2`), `AgentC↔AgentD` (via `E4`/`E5`), weakly connected through the
edge `AgentB → AgentC` (via `E3`). -/
def gWeak : Graph := applyCalls []
  [⟨"AgentA", ["E1"], ["E2"]⟩, ⟨"AgentB", ["E2", "E3"], ["E1"]⟩,
   ⟨"AgentC", ["E4"], ["E3", "E5"]⟩, ⟨"AgentD", ["E5"], ["E4"]⟩]

/-- A reachable graph with one entry-point event: `AgentP` publishes `Start`
and nothing subscribes to it. -/
def gEntry : Graph := applyCalls [] [⟨"AgentP", ["Start"], []⟩]

/-! ## C5: Scenario B cycle finding -/

/-- C5: on the Scenario B graph the cycle check returns exactly one finding
containing both agents with severity `warning`, whose hop labelled `AgentA`
publishes `EventX` (the A→B connecting event) and whose hop labelled
`AgentB` publishes `EventY` (the B→A connecting event) — under both possible
root iteration orders of the two-agent set. -/
theorem C5_scenario_b_cycle :
    detect_cycles gScenB = .ok
      [⟨["AgentA", "AgentB"],
        [⟨"AgentA", "default", ["EventX"]⟩, ⟨"AgentB", "default", ["EventY"]⟩],
        "warning",
        "Circular dependency detected: AgentA -> AgentB -> AgentA"⟩] ∧
    detectCyclesFromRoots gScenB [⟨"AgentB", "default"⟩, ⟨"AgentA", "default"⟩] = .ok
      [⟨["AgentB", "AgentA"],
        [⟨"AgentB", "default", ["EventY"]⟩, ⟨"AgentA", "default", ["EventX"]⟩],
        "warning",
        "Circular dependency detected: AgentB -> AgentA -> AgentB"⟩] :=
  ⟨rfl, rfl⟩

/-! ## C4: anomaly detection can raise on a reachable graph -/

/-- C4 (refuting the "never raises" part, confirming the empty-graph part):
on the reachable graph `gCrash` the cycle check raises `ValueError`
(`path.index` on an agent left on `rec_stack` by an earlier aborted
traversal), while the summary of the empty graph is all-zero as claimed. -/
theorem C4_detect_cycles_raises_on_reachable_graph :
    detect_cycles gCrash = .error "ValueError" ∧
    get_anomaly_summary emptyGraph = .ok ⟨0, 0, 0, 0⟩ :=
  ⟨rfl, rfl⟩

/-! ## C3: cycle findings vs weakly-connected components -/

/-- The derived agent-level graph of spec §4.3: an edge `a → b` iff some
event published by `a` is subscribed to by `b`, and `a ≠ b`. -/
def derivedEdge (g : Graph) (a b : NamespacedItem) : Prop :=
  a ≠ b ∧ ∃ e ∈ lookupList g.publications a, b ∈ lookupList g.event_to_subscribers e

instance (g : Graph) (a b : NamespacedItem) : Decidable (derivedEdge g a b) := by
  unfold derivedEdge
  infer_instance

/-- One undirected step in the derived agent graph. -/
def wconnStep (g : Graph) (a b : NamespacedItem) : Prop :=
  derivedEdge g a b ∨ derivedEdge g b a

/-- `a` and `b` lie in the same weakly-connected component of the derived
agent graph. -/
def wconn (g : Graph) : NamespacedItem → NamespacedItem → Prop :=
  Relation.ReflTransGen (wconnStep g)

/-- C3 counterexample: on `gWeak`, with roots iterated in insertion order
(a possible Python set order), the cycle check returns TWO distinct findings
— one on `{AgentA, AgentB}`, one on `{AgentC, AgentD}` — although all four
agents lie in a single weakly-connected component of the derived agent
graph.  Hence "at most one cycle finding per weakly-connected component" is
false. -/
theorem C3_counterexample :
    detect_cycles gWeak = .ok
      [⟨["AgentA", "AgentB"],
        [⟨"AgentA", "default", ["E1"]⟩, ⟨"AgentB", "default", ["E2"]⟩],
        "warning",
        "Circular dependency detected: AgentA -> AgentB -> AgentA"⟩,
       ⟨["AgentC", "AgentD"],
        [⟨"AgentC", "default", ["E4"]⟩, ⟨"AgentD", "default", ["E5"]⟩],
        "warning",
        "Circular dependency detected: AgentC -> AgentD -> AgentC"⟩] ∧
    wconn gWeak ⟨"AgentA", "default"⟩ ⟨"AgentC", "default"⟩ := by
  constructor
  · rfl
  · have h1 : wconnStep gWeak ⟨"AgentA", "default"⟩ ⟨"AgentB", "default"⟩ :=
      Or.inl (by decide)
    have h2 : wconnStep gWeak ⟨"AgentB", "default"⟩ ⟨"AgentC", "default"⟩ :=
      Or.inl (by decide)
    exact Relation.ReflTransGen.head h1 (Relation.ReflTransGen.single h2)

theorem dfsNeighborStep_bound (g : Graph) (fuel : Nat) (base : List CycleFinding)
    (hdfs : ∀ (a : NamespacedItem) (s : DfsState) (r : DfsState × Bool),
      dfs g fuel a s = .ok r →
      r.1.cycles.length ≤ s.cycles.length + 1 ∧ (r.2 = false → r.1.cycles = s.cycles))
    (acc : Except String (DfsState × Bool)) (n : NamespacedItem)
    (hacc : ∀ s b, acc = .ok (s, b) →
      s.cycles.length ≤ base.length + 1 ∧ (b = false → s.cycles = base)) :
    ∀ s b, dfsNeighborStep g (fun n s => dfs g fuel n s) acc n = .ok (s, b) →
      s.cycles.length ≤ base.length + 1 ∧ (b = false → s.cycles = base) := by
  intro s b hstep
  cases acc with
  | error e => simp [dfsNeighborStep] at hstep
  | ok p =>
      obtain ⟨s0, b0⟩ := p
      cases b0 with
      | true =>
          simp only [dfsNeighborStep] at hstep
          obtain ⟨h1, h2⟩ := Prod.mk.injEq .. ▸ (Except.ok.injEq .. ▸ hstep)
          exact ⟨h1 ▸ (hacc s0 true rfl).1, fun hb => absurd (h2 ▸ hb) (by simp)⟩
      | false =>
          have h0 := hacc s0 false rfl
          have hcyc : s0.cycles = base := h0.2 rfl
          simp only [dfsNeighborStep] at hstep
          by_cases hv : n ∈ s0.visited
          · rw [if_pos hv] at hstep
            by_cases hr : n ∈ s0.recStack
            · rw [if_pos hr] at hstep
              cases hidx : idxOf s0.path n with
              | none => rw [hidx] at hstep; cases hstep
              | some i =>
                  rw [hidx] at hstep
                  obtain ⟨h1, h2⟩ := Prod.mk.injEq .. ▸ (Except.ok.injEq .. ▸ hstep)
                  refine ⟨?_, fun hb => absurd (h2 ▸ hb) (by simp)⟩
                  rw [← h1]
                  simp [hcyc]
            · rw [if_neg hr] at hstep
              obtain ⟨h1, h2⟩ := Prod.mk.injEq .. ▸ (Except.ok.injEq .. ▸ hstep)
              exact ⟨h1 ▸ (by simp [hcyc]), fun _ => h1 ▸ hcyc⟩
          · rw [if_neg hv] at hstep
            have := hdfs n s0 (s, b) hstep
            rw [hcyc] at this
            exact this

theorem foldl_dfsNeighborStep_bound (g : Graph) (fuel : Nat)
    (base : List CycleFinding)
    (hdfs : ∀ (a : NamespacedItem) (s : DfsState) (r : DfsState × Bool),
      dfs g fuel a s = .ok r →
      r.1.cycles.length ≤ s.cycles.length + 1 ∧ (r.2 = false → r.1.cycles = s.cycles)) :
    ∀ (ns : List NamespacedItem) (acc : Except String (DfsState × Bool)),
      (∀ s b, acc = .ok (s, b) →
        s.cycles.length ≤ base.length + 1 ∧ (b = false → s.cycles = base)) →
      ∀ s b, ns.foldl (dfsNeighborStep g (fun n s => dfs g fuel n s)) acc = .ok (s, b) →
        s.cycles.length ≤ base.length + 1 ∧ (b = false → s.cycles = base) := by
  intro ns
  induction ns with
  | nil => intro acc hacc s b h; exact hacc s b h
  | cons n rest ih =>
      intro acc hacc s b h
      rw [List.foldl_cons] at h
      exact ih _ (dfsNeighborStep_bound g fuel base hdfs acc n hacc) s b h

theorem dfs_cycles_bound (g : Graph) :
    ∀ (fuel : Nat) (a : NamespacedItem) (s : DfsState) (r : DfsState × Bool),
      dfs g fuel a s = .ok r →
      r.1.cycles.length ≤ s.cycles.length + 1 ∧ (r.2 = false → r.1.cycles = s.cycles) := by
  intro fuel
  induction fuel with
  | zero => intro a s r h; exact absurd h (by simp [dfs])
  | succ fuel ih =>
      intro a s r h
      rw [dfs] at h
      cases hfold : (agentGraphAdj g a).foldl
          (dfsNeighborStep g (fun n s => dfs g fuel n s))
          (.ok (⟨a :: s.visited, a :: s.recStack, s.path ++ [a], s.cycles⟩, false)) with
      | error e => rw [hfold] at h; cases h
      | ok p =>
          rw [hfold] at h
          obtain ⟨s2, b2⟩ := p
          have hf := foldl_dfsNeighborStep_bound g fuel s.cycles ih
            (agentGraphAdj g a)
            (.ok (⟨a :: s.visited, a :: s.recStack, s.path ++ [a], s.cycles⟩, false))
            (by
              intro s' b' hacc
              obtain ⟨h1, h2⟩ := Prod.mk.injEq .. ▸ (Except.ok.injEq .. ▸ hacc)
              exact ⟨by rw [← h1]; simp, fun _ => by rw [← h1]⟩)
            s2 b2 hfold
          cases b2 with
          | true =>
              obtain ⟨h1, h2⟩ := Prod.mk.injEq .. ▸ (Except.ok.injEq .. ▸ h)
              exact ⟨h1 ▸ hf.1, fun hb => absurd (h2 ▸ hb) (by simp)⟩
          | false =>
              obtain ⟨h1, h2⟩ := Prod.mk.injEq .. ▸ (Except.ok.injEq .. ▸ h)
              have hc := hf.2 rfl
              constructor
              · rw [← h1]
                simp [hc]
              · intro _
                rw [← h1]
                simpa using hc

theorem dfsRootsLoop_bound (g : Graph) (fuel : Nat) :
    ∀ (roots : List NamespacedItem) (s s' : DfsState),
      dfsRootsLoop g fuel roots s = .ok s' →
      s'.cycles.length ≤ s.cycles.length + roots.length := by
  intro roots
  induction roots with
  | nil =>
      intro s s' h
      obtain h1 := Except.ok.injEq .. ▸ h
      rw [← h1]
      simp
  | cons a rest ih =>
      intro s s' h
      rw [dfsRootsLoop] at h
      by_cases hv : a ∈ s.visited
      · rw [if_pos hv] at h
        have := ih s s' h
        simp only [List.length_cons]
        omega
      · rw [if_neg hv] at h
        cases hdfs : dfs g fuel a { s with path := [] } with
        | error e => rw [hdfs] at h; cases h
        | ok p =>
            rw [hdfs] at h
            obtain ⟨s1, b⟩ := p
            have hb := (dfs_cycles_bound g fuel a _ _ hdfs).1
            have hb' : s1.cycles.length ≤ s.cycles.length + 1 := by
              simpa using hb
            have ht := ih s1 s' h
            simp only [List.length_cons]
            omega

/-- C3 amended: the cycle check reports at most one finding per top-level
DFS invocation (the DFS aborts on the first back-edge of that traversal), so
when `detect_cycles` returns normally the number of findings is at most the
number of roots iterated; two findings can lie in the same weakly-connected
component (see `C3_counterexample`). -/
theorem C3_amended_at_most_one_per_root (g : Graph)
    (roots : List NamespacedItem) (l : List CycleFinding)
    (h : detectCyclesFromRoots g roots = .ok l) :
    l.length ≤ roots.length := by
  unfold detectCyclesFromRoots at h
  cases hr : dfsRootsLoop g (cyclesFuel g) roots ⟨[], [], [], []⟩ with
  | error e => rw [hr] at h; cases h
  | ok s =>
      rw [hr] at h
      obtain h1 := Except.ok.injEq .. ▸ h
      have := dfsRootsLoop_bound g (cyclesFuel g) roots ⟨[], [], [], []⟩ s hr
      rw [← h1]
      simpa using this

/-- Witness for the amended C3 at the Scenario B graph: one finding, two
roots. -/
theorem C3_amended_at_most_one_per_root_witness :
    ([⟨["AgentA", "AgentB"],
        [⟨"AgentA", "default", ["EventX"]⟩, ⟨"AgentB", "default", ["EventY"]⟩],
        "warning",
        "Circular dependency detected: AgentA -> AgentB -> AgentA"⟩] :
      List CycleFinding).length ≤ (allAgentsList gScenB).length :=
  C3_amended_at_most_one_per_root gScenB (allAgentsList gScenB) _ rfl

/-! ## C9: ingestion never fails, even on an empty agent name -/

/-- The claim's error model, written from the spec's words (§4.2, §7):
`recordAgent` fails with an `IngestionError` when `agentName` is empty and
leaves the graph unchanged, otherwise behaves like the code.  Used only for
comparison against the code's `analyzeFile`, which has no failure path. -/
def recordAgentSpec (idx : NsIndex) (agentName : String)
    (publishedNames subscribedNames : List String) (g : Graph) :
    Except String Graph :=
  if agentName = "" then .error "IngestionError"
  else .ok (analyzeFile idx agentName publishedNames subscribedNames g)

/-- C9 counterexample: on the empty agent name the spec model raises and
keeps the graph unchanged, but the code ingests normally — the call returns
(no exception exists in `_analyze_file`) and records the publication under
the empty-named agent, so the graph is NOT left unchanged. -/
theorem C9_counterexample :
    recordAgentSpec [] "" ["EventX"] [] emptyGraph = .error "IngestionError" ∧
    analyzeFile [] "" ["EventX"] [] emptyGraph ≠ emptyGraph ∧
    (analyzeFile [] "" ["EventX"] [] emptyGraph).publications =
      [(⟨"", "default"⟩, [⟨"EventX", "default"⟩])] := by
  refine ⟨rfl, ?_, rfl⟩
  intro h
  exact absurd (congrArg Graph.publications h) (by decide)

theorem subscriptions_foldl_recordPub (agent : NamespacedItem)
    (pairs : List (String × String)) (g : Graph) :
    (pairs.foldl (fun g p => recordPub agent g ⟨p.1, p.2⟩) g).subscriptions =
      g.subscriptions := by
  induction pairs generalizing g with
  | nil => rfl
  | cons p pairs ih => exact ih _

theorem publications_foldl_recordSub (agent : NamespacedItem)
    (f : String → NamespacedItem) (names : List String) (g : Graph) :
    ((names.foldl (fun g sn => recordSub agent g (f sn)) g).publications) =
      g.publications := by
  induction names generalizing g with
  | nil => rfl
  | cons n names ih => exact ih _

theorem lookup_subs_foldl_recordSub (agent : NamespacedItem)
    (f : String → NamespacedItem) (names : List String) (g : Graph) :
    lookupList ((names.foldl (fun g sn => recordSub agent g (f sn)) g).subscriptions)
        agent =
      lookupList g.subscriptions agent ++ names.map f := by
  induction names generalizing g with
  | nil => simp
  | cons n names ih =>
      rw [List.foldl_cons, ih]
      show lookupList (appendTo g.subscriptions agent (f n)) agent ++ _ = _
      rw [lookupList_appendTo, if_pos rfl]
      simp

theorem lookup_pubs_foldl_recordPub (agent : NamespacedItem)
    (pairs : List (String × String)) (g : Graph) :
    lookupList ((pairs.foldl (fun g p => recordPub agent g ⟨p.1, p.2⟩) g).publications)
        agent =
      lookupList g.publications agent ++
        pairs.map (fun p => (⟨p.1, p.2⟩ : NamespacedItem)) := by
  induction pairs generalizing g with
  | nil => simp
  | cons p pairs ih =>
      rw [List.foldl_cons, ih]
      show lookupList (appendTo g.publications agent ⟨p.1, p.2⟩) agent ++ _ = _
      rw [lookupList_appendTo, if_pos rfl]
      simp

/-- C9 amended: ingestion never fails for ANY agent name — the empty string
included — and simply appends the supplied facts: the ingested agent's
subscription list grows by exactly the resolved subscribed events and its
publication list by exactly the resolved published events; unknown event
class names (absent from the namespace index) resolve to `"default"`.  (The
code performs no validation of the agent name and no `IngestionError`
exists.) -/
theorem C9_amended_ingestion_total (idx : NsIndex) (agentName : String)
    (publishedNames subscribedNames : List String) (g : Graph) :
    lookupList ((analyzeFile idx agentName publishedNames subscribedNames g).subscriptions)
        ⟨agentName, inferAgentNamespace
          (publishedNames.map (fun en => (en, resolveNS idx en)))⟩ =
      lookupList g.subscriptions
          ⟨agentName, inferAgentNamespace
            (publishedNames.map (fun en => (en, resolveNS idx en)))⟩ ++
        subscribedNames.map (fun sn => (⟨sn, resolveNS idx sn⟩ : NamespacedItem)) ∧
    lookupList ((analyzeFile idx agentName publishedNames subscribedNames g).publications)
        ⟨agentName, inferAgentNamespace
          (publishedNames.map (fun en => (en, resolveNS idx en)))⟩ =
      lookupList g.publications
          ⟨agentName, inferAgentNamespace
            (publishedNames.map (fun en => (en, resolveNS idx en)))⟩ ++
        publishedNames.map (fun en => (⟨en, resolveNS idx en⟩ : NamespacedItem)) ∧
    (∀ cn : String, idx.find? (fun p => decide (p.1 = cn)) = none →
      resolveNS idx cn = "default") := by
  refine ⟨?_, ?_, ?_⟩
  · show lookupList
        ((((publishedNames.map (fun en => (en, resolveNS idx en))).foldl
          (fun g p => recordPub _ g ⟨p.1, p.2⟩)
          (subscribedNames.foldl (fun g sn => recordSub _ g ⟨sn, resolveNS idx sn⟩) g))).subscriptions)
        _ = _
    rw [subscriptions_foldl_recordPub]
    exact lookup_subs_foldl_recordSub _ _ _ _
  · show lookupList
        ((((publishedNames.map (fun en => (en, resolveNS idx en))).foldl
          (fun g p => recordPub _ g ⟨p.1, p.2⟩)
          (subscribedNames.foldl (fun g sn => recordSub _ g ⟨sn, resolveNS idx sn⟩) g))).publications)
        _ = _
    rw [lookup_pubs_foldl_recordPub, publications_foldl_recordSub]
    simp
  · intro cn h
    unfold resolveNS
    rw [h]

/-- Witness for the amended C9 at the empty agent name: the call succeeds
and records the subscription under the empty-named agent; the unknown class
name `EventX` resolves to `default`. -/
theorem C9_amended_ingestion_total_witness :
    lookupList ((analyzeFile [] "" ["EventX"] ["EventY"] emptyGraph).subscriptions)
        ⟨"", "default"⟩ = [⟨"EventY", "default"⟩] ∧
    resolveNS [] "EventX" = "default" := by
  have h := C9_amended_ingestion_total [] "" ["EventX"] ["EventY"] emptyGraph
  exact ⟨by simpa using h.1, h.2.2 "EventX" rfl⟩

/-! ## C8: chains partition the visited events -/

/-- The `if sub_chain:` guard of `_build_chain` is a no-op on the chain
content: extending by the empty list is extending by nothing. -/
theorem if_isEmpty_eq_self {α : Type} (c : List α) :
    (if c.isEmpty then ([] : List α) else c) = c := by
  cases c <;> simp

theorem chainStep_spec (g : Graph) (fuel : Nat) (vis0 : List NamespacedItem)
    (hbc : ∀ (pe : NamespacedItem) (v : List NamespacedItem)
      (res : List NamespacedItem × List NamespacedItem),
      build_chain g fuel pe v = .ok res →
      res.1.Nodup ∧ (∀ x ∈ res.1, x ∉ v) ∧ (∀ x, x ∈ res.2 ↔ x ∈ res.1 ∨ x ∈ v))
    (acc : Except String (List NamespacedItem × List NamespacedItem))
    (pe : NamespacedItem)
    (hacc : ∀ chain v, acc = .ok (chain, v) →
      chain.Nodup ∧ (∀ x ∈ chain, x ∉ vis0) ∧
      (∀ x, x ∈ v ↔ x ∈ chain ∨ x ∈ vis0)) :
    ∀ chain v,
      chainStep (fun pe vis => build_chain g fuel pe vis) acc pe = .ok (chain, v) →
      chain.Nodup ∧ (∀ x ∈ chain, x ∉ vis0) ∧
      (∀ x, x ∈ v ↔ x ∈ chain ∨ x ∈ vis0) := by
  intro chain v hstep
  cases acc with
  | error e => simp [chainStep] at hstep
  | ok p =>
      obtain ⟨c0, v0⟩ := p
      obtain ⟨hnd0, hdis0, hiff0⟩ := hacc c0 v0 rfl
      simp only [chainStep] at hstep
      cases hrec : build_chain g fuel pe v0 with
      | error e => rw [hrec] at hstep; cases hstep
      | ok q =>
          rw [hrec] at hstep
          obtain ⟨c1, v1⟩ := q
          obtain ⟨hnd1, hdis1, hiff1⟩ := hbc pe v0 (c1, v1) hrec
          obtain ⟨h1, h2⟩ := Prod.mk.injEq .. ▸ (Except.ok.injEq .. ▸ hstep)
          rw [if_isEmpty_eq_self] at h1
          subst h1
          subst h2
          refine ⟨?_, ?_, ?_⟩
          · refine hnd0.append hnd1 ?_
            intro x hx0 hx1
            exact hdis1 x hx1 ((hiff0 x).mpr (Or.inl hx0))
          · intro x hx
            rcases List.mem_append.mp hx with hx | hx
            · exact hdis0 x hx
            · intro hxvis
              exact hdis1 x hx ((hiff0 x).mpr (Or.inr hxvis))
          · intro x
            rw [hiff1 x, hiff0 x, List.mem_append]
            tauto

theorem chainPubs_foldl_spec (g : Graph) (fuel : Nat) (vis0 : List NamespacedItem)
    (hbc : ∀ (pe : NamespacedItem) (v : List NamespacedItem)
      (res : List NamespacedItem × List NamespacedItem),
      build_chain g fuel pe v = .ok res →
      res.1.Nodup ∧ (∀ x ∈ res.1, x ∉ v) ∧ (∀ x, x ∈ res.2 ↔ x ∈ res.1 ∨ x ∈ v)) :
    ∀ (pes : List NamespacedItem)
      (acc : Except String (List NamespacedItem × List NamespacedItem)),
      (∀ chain v, acc = .ok (chain, v) →
        chain.Nodup ∧ (∀ x ∈ chain, x ∉ vis0) ∧
        (∀ x, x ∈ v ↔ x ∈ chain ∨ x ∈ vis0)) →
      ∀ chain v,
        pes.foldl (chainStep (fun pe vis => build_chain g fuel pe vis)) acc =
          .ok (chain, v) →
        chain.Nodup ∧ (∀ x ∈ chain, x ∉ vis0) ∧
        (∀ x, x ∈ v ↔ x ∈ chain ∨ x ∈ vis0) := by
  intro pes
  induction pes with
  | nil => intro acc hacc chain v h; exact hacc chain v h
  | cons pe pes ih =>
      intro acc hacc chain v h
      rw [List.foldl_cons] at h
      exact ih _ (chainStep_spec g fuel vis0 hbc acc pe hacc) chain v h

theorem chainSubs_foldl_spec (g : Graph) (fuel : Nat) (vis0 : List NamespacedItem)
    (hbc : ∀ (pe : NamespacedItem) (v : List NamespacedItem)
      (res : List NamespacedItem × List NamespacedItem),
      build_chain g fuel pe v = .ok res →
      res.1.Nodup ∧ (∀ x ∈ res.1, x ∉ v) ∧ (∀ x, x ∈ res.2 ↔ x ∈ res.1 ∨ x ∈ v)) :
    ∀ (subsList : List NamespacedItem)
      (acc : Except String (List NamespacedItem × List NamespacedItem)),
      (∀ chain v, acc = .ok (chain, v) →
        chain.Nodup ∧ (∀ x ∈ chain, x ∉ vis0) ∧
        (∀ x, x ∈ v ↔ x ∈ chain ∨ x ∈ vis0)) →
      ∀ chain v,
        subsList.foldl
          (fun acc s => (lookupList g.publications s).foldl
            (chainStep (fun pe vis => build_chain g fuel pe vis)) acc) acc =
          .ok (chain, v) →
        chain.Nodup ∧ (∀ x ∈ chain, x ∉ vis0) ∧
        (∀ x, x ∈ v ↔ x ∈ chain ∨ x ∈ vis0) := by
  intro subsList
  induction subsList with
  | nil => intro acc hacc chain v h; exact hacc chain v h
  | cons s subsList ih =>
      intro acc hacc chain v h
      rw [List.foldl_cons] at h
      refine ih _ ?_ chain v h
      intro chain' v' hacc'
      exact chainPubs_foldl_spec g fuel vis0 hbc _ acc hacc chain' v' hacc'

theorem build_chain_spec (g : Graph) :
    ∀ (fuel : Nat) (e : NamespacedItem) (vis : List NamespacedItem)
      (res : List NamespacedItem × List NamespacedItem),
      build_chain g fuel e vis = .ok res →
      res.1.Nodup ∧ (∀ x ∈ res.1, x ∉ vis) ∧
      (∀ x, x ∈ res.2 ↔ x ∈ res.1 ∨ x ∈ vis) := by
  intro fuel
  induction fuel with
  | zero => intro e vis res h; exact absurd h (by simp [build_chain])
  | succ fuel ih =>
      intro e vis res h
      rw [build_chain] at h
      by_cases hv : e ∈ vis
      · rw [if_pos hv] at h
        obtain h1 := Except.ok.injEq .. ▸ h
        rw [← h1]
        refine ⟨List.nodup_nil, ?_, ?_⟩
        · intro x hx; cases hx
        · intro x; simp
      · rw [if_neg hv] at h
        obtain ⟨c, v⟩ := res
        refine chainSubs_foldl_spec g fuel vis ih _ _ ?_ c v h
        intro chain' v' hacc
        obtain ⟨h1, h2⟩ := Prod.mk.injEq .. ▸ (Except.ok.injEq .. ▸ hacc)
        rw [← h1, ← h2]
        refine ⟨List.nodup_singleton e, ?_, ?_⟩
        · intro x hx
          rw [List.mem_singleton] at hx
          subst hx
          exact hv
        · intro x
          simp [List.mem_cons]

theorem chainsLoop_spec (g : Graph) (fuel : Nat) :
    ∀ (entries vis : List NamespacedItem) (res : List (List NamespacedItem)),
      chainsLoop g fuel entries vis = .ok res →
      res.flatten.Nodup ∧ (∀ x ∈ res.flatten, x ∉ vis) ∧ (∀ c ∈ res, c ≠ []) := by
  intro entries
  induction entries with
  | nil =>
      intro vis res h
      obtain h1 := Except.ok.injEq .. ▸ h
      rw [← h1]
      exact ⟨List.nodup_nil, (by intro x hx; cases hx), (by intro c hc; cases hc)⟩
  | cons e rest ih =>
      intro vis res h
      rw [chainsLoop] at h
      cases hbc : build_chain g fuel e vis with
      | error s => rw [hbc] at h; cases h
      | ok p =>
          rw [hbc] at h
          obtain ⟨c, v⟩ := p
          obtain ⟨hnd, hdis, hiff⟩ := build_chain_spec g fuel e vis (c, v) hbc
          have h' : (match chainsLoop g fuel rest v with
              | Except.error s => Except.error s
              | Except.ok cs =>
                  Except.ok ((if c.isEmpty = true then [] else [c]) ++ cs)) =
              Except.ok res := h
          cases hrest : chainsLoop g fuel rest v with
          | error s => rw [hrest] at h'; cases h'
          | ok cs =>
              rw [hrest] at h'
              obtain ⟨hndcs, hdiscs, hne⟩ := ih v cs hrest
              obtain h1 := Except.ok.injEq .. ▸ h'
              rw [← h1]
              by_cases hce : c.isEmpty
              · have hcnil : c = [] := by
                  cases c
                  · rfl
                  · simp at hce
                rw [if_pos hce]
                refine ⟨by simpa using hndcs, ?_, by simpa using hne⟩
                intro x hx
                have hxv := hdiscs x (by simpa using hx)
                intro hxvis
                exact hxv ((hiff x).mpr (Or.inr hxvis))
              · rw [if_neg hce]
                refine ⟨?_, ?_, ?_⟩
                · rw [List.flatten_append]
                  refine (by simpa using hnd : (([c] : List (List NamespacedItem)).flatten).Nodup).append hndcs ?_
                  intro x hx0 hx1
                  have hx0' : x ∈ c := by simpa using hx0
                  exact hdiscs x hx1 ((hiff x).mpr (Or.inl hx0'))
                · intro x hx
                  rw [List.flatten_append] at hx
                  rcases List.mem_append.mp hx with hx | hx
                  · exact hdis x (by simpa using hx)
                  · have hxv := hdiscs x hx
                    intro hxvis
                    exact hxv ((hiff x).mpr (Or.inr hxvis))
                · intro cc hcc
                  rcases List.mem_append.mp hcc with hcc | hcc
                  · have : cc = c := by simpa using hcc
                    subst this
                    intro hccnil
                    rw [hccnil] at hce
                    exact hce rfl
                  · exact hne cc hcc

/-- C8: whenever `get_event_chains` returns normally, the concatenation of
the returned chains has no duplicates — each chain is duplicate-free and no
event occurs in two different chains — and every returned chain is non-empty
(an entry point whose expansion discovers no unvisited event contributes no
chain). -/
theorem C8_chains_disjoint_nonempty (g : Graph)
    (res : List (List NamespacedItem)) (h : get_event_chains g = .ok res) :
    res.flatten.Nodup ∧ (∀ c ∈ res, c ≠ []) := by
  unfold get_event_chains at h
  obtain ⟨h1, _, h3⟩ := chainsLoop_spec g (chainFuel g) (entry_events g) [] res h
  exact ⟨h1, h3⟩

/-- Witness for C8 at the concrete graph `gEntry`, whose single entry point
`Start` yields the single chain `[Start]`. -/
theorem C8_chains_disjoint_nonempty_witness :
    ([[⟨"Start", "default"⟩]] : List (List NamespacedItem)).flatten.Nodup ∧
    (∀ c ∈ ([[(⟨"Start", "default"⟩ : NamespacedItem)]] :
      List (List NamespacedItem)), c ≠ []) :=
  C8_chains_disjoint_nonempty gEntry [[⟨"Start", "default"⟩]] rfl

/-! ## C6: namespace-inference tie-breaking -/

/-- Maximum of a list of naturals (0 for the empty list). -/
def natMax (L : List Nat) : Nat := L.foldl max 0

/-- The highest occurrence count among the elements of `l`. -/
def maxOccCount (l : List String) : Nat := natMax (l.map (fun x => countOcc l x))

/-- Modelled from the spec's parenthetical characterization ("the namespace
of the earliest-occurring event among those tied for the maximum"): scan the
non-default namespace sequence in order and return the first element whose
total count equals the maximum; `"default"` when no non-default namespace
occurs. -/
def earliestTiedInfer (publishedEvents : List (String × String)) : String :=
  let nonDefault := (publishedEvents.map (fun p => p.2)).filter
    (fun ns => decide (ns ≠ "default"))
  match nonDefault.find?
      (fun x => decide (countOcc nonDefault x = maxOccCount nonDefault)) with
  | some ns => ns
  | none => "default"

/-- Helper for the claim's primary characterization: scanning `rest` with the
already-scanned prefix `pre`, return the first element whose running count
(occurrences in the scanned prefix including itself) reaches `m`. -/
def firstReachAux (m : Nat) : List String → List String → Option String
  | _, [] => none
  | pre, x :: rest =>
      if countOcc (pre ++ [x]) x = m then some x
      else firstReachAux m (pre ++ [x]) rest

/-- Modelled from the claim's primary wording ("the namespace that reached
that maximum count first when scanning the sequence in order"): the first
namespace whose running count reaches the overall maximum. -/
def reachedMaxFirstInfer (publishedEvents : List (String × String)) : String :=
  let nonDefault := (publishedEvents.map (fun p => p.2)).filter
    (fun ns => decide (ns ≠ "default"))
  match firstReachAux (maxOccCount nonDefault) [] nonDefault with
  | some ns => ns
  | none => "default"

/-- C6 counterexample: on the published-events sequence with namespaces
`a, b, b, a` the code returns `a` (the namespace of the earliest-occurring
tied event, first inserted into the `Counter`), while the namespace that
reached the maximum count 2 first when scanning is `b` (at the third
element, where `a`'s running count is still 1).  The claim's two tie-break
characterizations disagree, and the code implements the second. -/
theorem C6_counterexample :
    inferAgentNamespace [("E1", "a"), ("E2", "b"), ("E3", "b"), ("E4", "a")] = "a" ∧
    reachedMaxFirstInfer [("E1", "a"), ("E2", "b"), ("E3", "b"), ("E4", "a")] = "b" ∧
    inferAgentNamespace [("E1", "a"), ("E2", "b"), ("E3", "b"), ("E4", "a")] ≠
      reachedMaxFirstInfer [("E1", "a"), ("E2", "b"), ("E3", "b"), ("E4", "a")] :=
  ⟨rfl, rfl, by decide⟩

/-- `dict.get`-style count lookup in a counter: 0 for an absent key. -/
def lookupCount (c : List (String × Nat)) (x : String) : Nat :=
  match c.find? (fun p => decide (p.1 = x)) with
  | some p => p.2
  | none => 0

theorem countOcc_cons {α : Type} [DecidableEq α] (y : α) (l : List α) (x : α) :
    countOcc (y :: l) x = (if y = x then 1 else 0) + countOcc l x := by
  by_cases h : y = x
  · simp [countOcc, List.filter_cons, h]
    omega
  · simp [countOcc, List.filter_cons, h]

theorem lookupCount_counterInsert (c : List (String × Nat)) (y x : String) :
    lookupCount (counterInsert c y) x =
      lookupCount c x + (if y = x then 1 else 0) := by
  induction c with
  | nil =>
      by_cases h : y = x
      · subst h; simp [counterInsert, lookupCount, List.find?]
      · simp [counterInsert, lookupCount, List.find?, h]
  | cons q c ih =>
      obtain ⟨qk, qc⟩ := q
      by_cases hq : qk = y
      · subst hq
        have hc : counterInsert ((qk, qc) :: c) qk = (qk, qc + 1) :: c := by
          simp [counterInsert]
        rw [hc]
        by_cases hx : qk = x
        · subst hx
          simp [lookupCount, List.find?]
        · simp [lookupCount, List.find?, hx]
      · have hc : counterInsert ((qk, qc) :: c) y = (qk, qc) :: counterInsert c y := by
          simp [counterInsert, hq]
        rw [hc]
        by_cases hx : qk = x
        · subst hx
          have hyx : ¬ y = qk := fun hh => hq hh.symm
          simp [lookupCount, List.find?, hyx]
        · simp only [lookupCount, List.find?]
          simp only [show decide (qk = x) = false by simp [hx]]
          exact ih

theorem lookupCount_counterFold :
    ∀ (l : List String) (c : List (String × Nat)) (x : String),
      lookupCount (List.foldl counterInsert c l) x =
        lookupCount c x + countOcc l x := by
  intro l
  induction l with
  | nil => intro c x; simp [countOcc]
  | cons y l ih =>
      intro c x
      rw [List.foldl_cons, ih, lookupCount_counterInsert, countOcc_cons]
      omega

theorem keys_counterInsert (c : List (String × Nat)) (y : String) :
    (counterInsert c y).map (fun p => p.1) =
      if y ∈ c.map (fun p => p.1) then c.map (fun p => p.1)
      else c.map (fun p => p.1) ++ [y] := by
  induction c with
  | nil => simp [counterInsert]
  | cons q c ih =>
      obtain ⟨qk, qc⟩ := q
      by_cases hq : qk = y
      · subst hq
        have hc : counterInsert ((qk, qc) :: c) qk = (qk, qc + 1) :: c := by
          simp [counterInsert]
        rw [hc]
        simp
      · have hc : counterInsert ((qk, qc) :: c) y = (qk, qc) :: counterInsert c y := by
          simp [counterInsert, hq]
        rw [hc]
        have hyq : ¬ y = qk := fun hh => hq hh.symm
        by_cases hy : y ∈ c.map (fun p => p.1) <;>
          simp [hy, hyq, ih]

theorem keys_counterFold :
    ∀ (l : List String) (c : List (String × Nat)),
      (List.foldl counterInsert c l).map (fun p => p.1) =
        addKeys (c.map (fun p => p.1)) l := by
  intro l
  induction l with
  | nil => intro c; rfl
  | cons y l ih =>
      intro c
      rw [List.foldl_cons, ih, keys_counterInsert]
      rfl

theorem find?_eq_of_mem_nodupKeys (c : List (String × Nat)) (p : String × Nat)
    (hnd : (c.map (fun q => q.1)).Nodup) (hp : p ∈ c) :
    c.find? (fun q => decide (q.1 = p.1)) = some p := by
  induction c with
  | nil => cases hp
  | cons q c ih =>
      rcases List.mem_cons.mp hp with h1 | h1
      · subst h1
        exact List.find?_cons_of_pos _ (by simp)
      · have hnd' : (q.1 :: c.map (fun q => q.1)).Nodup := hnd
        have hq : ¬ q.1 = p.1 := by
          intro hh
          have hmem : p.1 ∈ c.map (fun q => q.1) :=
            List.mem_map.mpr ⟨p, h1, rfl⟩
          exact (List.nodup_cons.mp hnd').1 (hh ▸ hmem)
        rw [List.find?_cons_of_neg _ (by simp [hq])]
        exact ih (List.nodup_cons.mp hnd').2 h1

theorem keys_counterOf (l : List String) :
    (counterOf l).map (fun p => p.1) = addKeys [] l :=
  keys_counterFold l []

theorem counterOf_entry_count (l : List String) (p : String × Nat)
    (hp : p ∈ counterOf l) : p.2 = countOcc l p.1 := by
  have hnd : ((counterOf l).map (fun q => q.1)).Nodup := by
    rw [show (counterOf l).map (fun q => q.1) = addKeys [] l from keys_counterOf l]
    exact addKeys_nodup _ [] List.nodup_nil
  have hfind := find?_eq_of_mem_nodupKeys (counterOf l) p hnd hp
  have hlook : lookupCount (counterOf l) p.1 = p.2 := by
    unfold lookupCount
    rw [hfind]
  have hc2 : lookupCount (counterOf l) p.1 = countOcc l p.1 := by
    have h0 := lookupCount_counterFold l [] p.1
    rw [show lookupCount [] p.1 = 0 from rfl, Nat.zero_add] at h0
    exact h0
  rw [← hc2]
  exact hlook.symm

theorem foldl_max_eq (L : List Nat) : ∀ a : Nat, L.foldl max a = max a (natMax L) := by
  induction L with
  | nil => intro a; simp [natMax]
  | cons x L ih =>
      intro a
      rw [natMax, List.foldl_cons, List.foldl_cons, ih, ih]
      omega

theorem mem_le_natMax (L : List Nat) (x : Nat) (h : x ∈ L) : x ≤ natMax L := by
  induction L with
  | nil => cases h
  | cons y L ih =>
      have hy : natMax (y :: L) = max y (natMax L) := by
        rw [natMax, List.foldl_cons, foldl_max_eq]
        omega
      rcases List.mem_cons.mp h with h1 | h1
      · subst h1; omega
      · have := ih h1; omega

theorem natMax_le (L : List Nat) (b : Nat) (h : ∀ x ∈ L, x ≤ b) : natMax L ≤ b := by
  induction L with
  | nil => simp [natMax]
  | cons y L ih =>
      have hy : natMax (y :: L) = max y (natMax L) := by
        rw [natMax, List.foldl_cons, foldl_max_eq]
        omega
      have h1 := h y (List.mem_cons_self y L)
      have h2 := ih (fun x hx => h x (List.mem_cons_of_mem y hx))
      omega

theorem maxCount_eq_natMax (c : List (String × Nat)) :
    maxCount c = natMax (c.map (fun p => p.2)) := by
  unfold maxCount natMax
  rw [List.foldl_map]

theorem lookupCount_mem_counts (c : List (String × Nat)) (x : String)
    (h : x ∈ c.map (fun p => p.1)) :
    lookupCount c x ∈ c.map (fun p => p.2) := by
  induction c with
  | nil => cases h
  | cons q c ih =>
      by_cases hq : q.1 = x
      · have : lookupCount (q :: c) x = q.2 := by
          unfold lookupCount
          rw [List.find?_cons_of_pos _ (by simp [hq])]
        rw [this]
        exact List.mem_map.mpr ⟨q, List.mem_cons_self q c, rfl⟩
      · have hx : x ∈ c.map (fun p => p.1) := by
          rcases List.mem_map.mp h with ⟨p, hp, hpx⟩
          rcases List.mem_cons.mp hp with h1 | h1
          · exact absurd (h1 ▸ hpx) hq
          · exact List.mem_map.mpr ⟨p, h1, hpx⟩
        have : lookupCount (q :: c) x = lookupCount c x := by
          unfold lookupCount
          rw [List.find?_cons_of_neg _ (by simp [hq])]
        rw [this]
        exact List.mem_cons_of_mem _ (ih hx)

theorem maxCount_counterOf (l : List String) :
    maxCount (counterOf l) = maxOccCount l := by
  apply Nat.le_antisymm
  · rw [maxCount_eq_natMax]
    apply natMax_le
    intro v hv
    rcases List.mem_map.mp hv with ⟨p, hp, hpv⟩
    have hcount := counterOf_entry_count l p hp
    have hkey : p.1 ∈ (counterOf l).map (fun q => q.1) :=
      List.mem_map.mpr ⟨p, hp, rfl⟩
    rw [keys_counterOf l] at hkey
    have hmem : p.1 ∈ l := by
      rcases (mem_addKeys l [] p.1).mp hkey with h | h
      · cases h
      · exact h
    have : countOcc l p.1 ∈ l.map (fun x => countOcc l x) :=
      List.mem_map.mpr ⟨p.1, hmem, rfl⟩
    rw [← hpv, hcount]
    exact mem_le_natMax _ _ this
  · apply natMax_le
    intro v hv
    rcases List.mem_map.mp hv with ⟨x, hx, hxv⟩
    have hkey : x ∈ (counterOf l).map (fun q => q.1) := by
      rw [keys_counterOf l]
      exact (mem_addKeys l [] x).mpr (Or.inr hx)
    have hlook : lookupCount (counterOf l) x = countOcc l x := by
      have := lookupCount_counterFold l [] x
      simpa [lookupCount, List.find?] using this
    have := lookupCount_mem_counts (counterOf l) x hkey
    rw [hlook, hxv] at this
    rw [maxCount_eq_natMax]
    exact mem_le_natMax _ _ this

theorem find?_pairs_to_keys (l : List String) (M : Nat) :
    ∀ (c : List (String × Nat)), (∀ p ∈ c, p.2 = countOcc l p.1) →
      ((c.find? (fun p => decide (p.2 = M))).map (fun p => p.1)) =
        (c.map (fun p => p.1)).find? (fun k => decide (countOcc l k = M)) := by
  intro c
  induction c with
  | nil => intro _; rfl
  | cons q c ih =>
      intro hc
      have hq := hc q (List.mem_cons_self q c)
      by_cases h : q.2 = M
      · rw [List.find?_cons_of_pos _ (by simp [h])]
        rw [show (q :: c).map (fun p => p.1) = q.1 :: c.map (fun p => p.1) from rfl]
        rw [List.find?_cons_of_pos _ (by simp [← hq, h])]
        rfl
      · rw [List.find?_cons_of_neg _ (by simp [h])]
        rw [show (q :: c).map (fun p => p.1) = q.1 :: c.map (fun p => p.1) from rfl]
        rw [List.find?_cons_of_neg _ (by simp [← hq, h])]
        exact ih (fun p hp => hc p (List.mem_cons_of_mem q hp))

theorem find?_append_singleton {α : Type} (ks : List α) (y : α) (p : α → Bool) :
    (ks ++ [y]).find? p =
      match ks.find? p with
      | some x => some x
      | none => if p y then some y else none := by
  induction ks with
  | nil =>
      by_cases hp : p y <;> simp [List.find?, hp]
  | cons k ks ih =>
      by_cases hk : p k
      · rw [show (k :: ks) ++ [y] = k :: (ks ++ [y]) from rfl,
          List.find?_cons_of_pos _ hk, List.find?_cons_of_pos _ hk]
      · rw [show (k :: ks) ++ [y] = k :: (ks ++ [y]) from rfl,
          List.find?_cons_of_neg _ hk, List.find?_cons_of_neg _ hk, ih]

theorem find?_addKeys (p : String → Bool) :
    ∀ (l ks : List String),
      (addKeys ks l).find? p =
        match ks.find? p with
        | some x => some x
        | none => l.find? p := by
  intro l
  induction l with
  | nil =>
      intro ks
      show ks.find? p = _
      cases hf : ks.find? p <;> simp [List.find?]
  | cons y l ih =>
      intro ks
      show (addKeys (if y ∈ ks then ks else ks ++ [y]) l).find? p = _
      by_cases hy : y ∈ ks
      · rw [if_pos hy, ih]
        cases hf : ks.find? p with
        | some x => rfl
        | none =>
            have hpy : p y = false := by
              cases hpy : p y
              · rfl
              · exfalso
                have hsome : (ks.find? p).isSome :=
                  List.find?_isSome.mpr ⟨y, hy, hpy⟩
                rw [hf] at hsome
                cases hsome
            rw [List.find?_cons_of_neg _ (by simp [hpy])]
      · rw [if_neg hy, ih, find?_append_singleton]
        cases hf : ks.find? p with
        | some x => rfl
        | none =>
            by_cases hpy : p y
            · rw [if_pos hpy, List.find?_cons_of_pos _ hpy]
            · rw [if_neg hpy, List.find?_cons_of_neg _ (by simp [hpy])]

theorem mostCommon1_counterOf (l : List String) :
    mostCommon1 (counterOf l) =
      l.find? (fun x => decide (countOcc l x = maxOccCount l)) := by
  unfold mostCommon1
  rw [maxCount_counterOf]
  rw [find?_pairs_to_keys l (maxOccCount l) (counterOf l)
    (fun p hp => counterOf_entry_count l p hp)]
  rw [keys_counterOf l]
  rw [find?_addKeys]
  rfl

/-- C6 amended: agent-namespace inference counts occurrences of each
namespace excluding `"default"`; it returns `"default"` if no non-default
namespace occurs, and otherwise the namespace with the highest count, ties
broken in favor of the namespace of the earliest-occurring event among those
tied for the maximum (first `Counter` insertion order) — NOT the namespace
whose running count reaches the maximum first (see `C6_counterexample`). -/
theorem C6_amended_tie_break_earliest_occurrence
    (publishedEvents : List (String × String)) :
    inferAgentNamespace publishedEvents = earliestTiedInfer publishedEvents :=
  congrArg
    (fun o => match o with | some ns => ns | none => "default")
    (mostCommon1_counterOf
      ((publishedEvents.map (fun p => p.2)).filter (fun ns => decide (ns ≠ "default"))))

end PubSubScanner
